import Mathlib

/-!
Verification of the ticker-service scheduler.

The definitions below are a shallow embedding of the two scheduler
implementations in the repository, `src/TickerService.ts` (the primary,
Map-based one) and `src/ticker-service.js` (the legacy, plain-object one).
JavaScript numbers are modelled as rationals; the special values
`Infinity` and `NaN`, and opaque non-numeric values, get their own
constructors so that the `typeof`/comparison checks of the source can be
reproduced.  Non-numeric values are taken to be ones that do not coerce
to a number (their truthiness is carried explicitly).  Callbacks are
opaque: an entry records only whether its `callback` field is a function
(the TypeScript tick guards on `typeof ticker.callback === 'function'`),
and the tick returns the list of invocations it performed, each with the
exact argument list passed to the callback.
-/

namespace TickerService

/-- Opaque model of a JavaScript value passed through to a callback in
`params`; the scheduler never inspects these. -/
abbrev Param := Nat

/-- Model of a JavaScript value in a numeric position (`delay`, `repeats`,
`time`, `frameRate`): a finite number, `Infinity`, `NaN`, or a
non-numeric value carrying its truthiness. -/
inductive JSVal where
  | num : ℚ → JSVal
  | infinity : JSVal
  | nan : JSVal
  | nonNum : Bool → JSVal
deriving DecidableEq

/-- The JavaScript `typeof v === 'number'` test: finite numbers,
`Infinity` and `NaN` are numbers. -/
def isNumber : JSVal → Bool
  | .num _ => true
  | .infinity => true
  | .nan => true
  | .nonNum _ => false

/-- The JavaScript comparison `v <= 0` (false for `Infinity`, `NaN` and
non-coercing non-numbers). -/
def jsLe0 : JSVal → Bool
  | .num q => decide (q ≤ 0)
  | .infinity => false
  | .nan => false
  | .nonNum _ => false

/-- JavaScript truthiness of a value in a numeric position. -/
def truthy : JSVal → Bool
  | .num q => decide (q ≠ 0)
  | .infinity => true
  | .nan => false
  | .nonNum b => b

/-- The JavaScript comparison `t >= v` for a finite number `t`
(false whenever `v` is `Infinity`, `NaN` or a non-coercing non-number). -/
def jsGe (t : ℚ) : JSVal → Bool
  | .num d => decide (d ≤ t)
  | .infinity => false
  | .nan => false
  | .nonNum _ => false

/-- The JavaScript comparison `count >= v` for a natural `count`. -/
def jsCountGe (c : Nat) : JSVal → Bool
  | .num r => decide (r ≤ (c : ℚ))
  | .infinity => false
  | .nan => false
  | .nonNum _ => false

/-- The JavaScript expression `1000 / v` used by `setAnimationLoop`. -/
def jsDiv1000 : JSVal → JSVal
  | .num q => if q = 0 then .infinity else .num (1000 / q)
  | .infinity => .num 0
  | .nan => .nan
  | .nonNum _ => .nan

/-- JavaScript `Math.round` on a finite number: round half toward
positive infinity. -/
def jsRound (q : ℚ) : ℤ := ⌊q + 1 / 2⌋

/-- An argument as received by a fired callback: either one of the
caller-supplied `params`, or a scheduler-supplied number
(`tickerTime` or `count`). -/
inductive JSArg where
  | extra : Param → JSArg
  | num : ℚ → JSArg
deriving DecidableEq

/-- One scheduled unit of work; mirrors the `TickerCallback` record of
`src/TickerService.ts` (fields `callback`, `params`, `repeats`, `delay`,
`count`, `executionTime`, `totalTime`), with the opaque `callback`
reduced to whether it is a function. -/
structure TickerCallback where
  callbackIsFn : Bool
  params : List Param
  repeats : JSVal
  delay : JSVal
  count : Nat
  executionTime : ℚ
  totalTime : ℚ
deriving DecidableEq

/-- A record of one callback invocation performed by a tick: the entry id
and the exact argument list passed. -/
abbrev Invocation := Nat × List JSArg

/-- The pending-callback registry in insertion order (fresh ids are
always appended, both by `Map.set` with a fresh key and by integer-keyed
object insertion). -/
abbrev Registry := List (Nat × TickerCallback)

/-- The per-entry body of `tick` from `src/TickerService.ts`: add the
delta to `totalTime`, compute the time since the last firing, and fire
when it reaches `delay` and the callback is a function.  Returns the
updated entry, the argument list of the invocation (if any), and whether
the entry must be removed (`count >= repeats` after firing). -/
def tickEntry (δ : ℚ) (t : TickerCallback) : TickerCallback × Option (List JSArg) × Bool :=
  let totalTime := t.totalTime + δ
  let tickerTime := totalTime - t.executionTime
  if jsGe tickerTime t.delay && t.callbackIsFn then
    ({ t with totalTime := totalTime, count := t.count + 1, executionTime := totalTime },
     some (t.params.map JSArg.extra ++ [JSArg.num tickerTime, JSArg.num (t.count : ℚ)]),
     jsCountGe (t.count + 1) t.repeats)
  else
    ({ t with totalTime := totalTime }, none, false)

/-- The `tick` of `src/TickerService.ts` specialised to callbacks that do
not mutate the registry: process every entry in insertion order,
dropping the ones whose repeat bound is consumed, and collect the
invocations in traversal order. -/
def tick (δ : ℚ) : Registry → Registry × List Invocation
  | [] => ([], [])
  | (i, t) :: rest =>
    let r := tickEntry δ t
    let p := tick δ rest
    (if r.2.2 then p.1 else (i, r.1) :: p.1,
     match r.2.1 with
     | some args => (i, args) :: p.2
     | none => p.2)

/-- Run a sequence of ticks (one per delivered frame) over a registry,
collecting all invocations. -/
def runTicks : List ℚ → Registry → Registry × List Invocation
  | [], reg => (reg, [])
  | δ :: ds, reg =>
    let p := tick δ reg
    let q := runTicks ds p.1
    (q.1, p.2 ++ q.2)

/-- The invocations of a given entry id within an invocation list. -/
def invocationsOf (i : Nat) (l : List Invocation) : List Invocation :=
  l.filter (fun p => decide (p.1 = i))

/-- Where one of the six host timer symbols currently points. -/
inductive Binding where
  | original : Binding
  | managed : Binding
deriving DecidableEq

/-- The six host-level timer symbol bindings that the mode toggle
swaps. -/
structure Bindings where
  setTimeoutSym : Binding
  clearTimeoutSym : Binding
  setIntervalSym : Binding
  clearIntervalSym : Binding
  requestAnimationFrameSym : Binding
  cancelAnimationFrameSym : Binding
deriving DecidableEq

/-- All six symbols bound to their captured originals (native mode). -/
def originalBindings : Bindings := ⟨.original, .original, .original, .original, .original, .original⟩

/-- All six symbols redirected to the scheduler (managed mode). -/
def managedBindings : Bindings := ⟨.managed, .managed, .managed, .managed, .managed, .managed⟩

/-- The two validation errors thrown by `createTickerCallback`. -/
inductive TickerError where
  | invalidDelay : TickerError
  | invalidRepeat : TickerError
deriving DecidableEq

/-- The scheduler state: the private fields of the `TickerService` class.
`framePending` models whether a frame request is in flight with the host
(`animationFrameRequest` plus the host-side queue). -/
structure State where
  currentIndex : Nat
  currentTime : ℚ
  delta : ℚ
  running : Bool
  framePending : Bool
  useScopeFunctionsFlag : Bool
  bindings : Bindings
  frameRateHistory : List ℚ
  tickerCallbacks : Registry
deriving DecidableEq

/-- The state of a freshly constructed scheduler object, before the
constructor calls `start()`. -/
def initState : State :=
  ⟨10000, 0, 0, false, false, true, originalBindings, [], []⟩

/-- The state after a successful registration: the index counter is
bumped and a fresh entry (count 0, no firing yet, `totalTime`
initialised to `currentTime - getTime()`) is appended under the old
counter value. -/
def registeredState (s : State) (now : ℚ) (cbFn : Bool) (params : List Param)
    (repeats delay : JSVal) : State :=
  { s with
    currentIndex := s.currentIndex + 1,
    tickerCallbacks := s.tickerCallbacks ++
      [(s.currentIndex, ⟨cbFn, params, repeats, delay, 0, 0, s.currentTime - now⟩)] }

/-- `createTickerCallback` from `src/TickerService.ts`: validate the
delay, then the repeat count, then allocate the next id and store the
entry.  `now` is the value the injected clock returns for `getTime()`
at registration time. -/
def createTickerCallback (s : State) (now : ℚ) (cbFn : Bool) (params : List Param)
    (repeats delay : JSVal) : Except TickerError (Nat × State) :=
  if !isNumber delay || jsLe0 delay then .error .invalidDelay
  else if !isNumber repeats || jsLe0 repeats then .error .invalidRepeat
  else .ok (s.currentIndex, registeredState s now cbFn params repeats delay)

/-- The `setTimeout` wrapper: a falsy `time` is replaced by `1`, the
repeat bound is `1`. -/
def setTimeout (s : State) (now : ℚ) (cbFn : Bool) (params : List Param)
    (time : JSVal) : Except TickerError (Nat × State) :=
  let time := if truthy time then time else JSVal.num 1
  createTickerCallback s now cbFn params (JSVal.num 1) time

/-- The `setInterval` wrapper: unbounded repeats (`Infinity`), the given
time passed through unchanged. -/
def setInterval (s : State) (now : ℚ) (cbFn : Bool) (params : List Param)
    (time : JSVal) : Except TickerError (Nat × State) :=
  createTickerCallback s now cbFn params JSVal.infinity time

/-- The `setCounter` wrapper: the given repeat bound and time passed
through unchanged. -/
def setCounter (s : State) (now : ℚ) (cbFn : Bool) (params : List Param)
    (time repeats : JSVal) : Except TickerError (Nat × State) :=
  createTickerCallback s now cbFn params repeats time

/-- The `requestAnimationFrame` wrapper: one repeat, delay `1`. -/
def requestAnimationFrame (s : State) (now : ℚ) (cbFn : Bool) :
    Except TickerError (Nat × State) :=
  createTickerCallback s now cbFn [] (JSVal.num 1) (JSVal.num 1)

/-- The `setAnimationLoop` wrapper: unbounded repeats, delay
`1000/frameRate` when a truthy frame rate is given, otherwise `1`. -/
def setAnimationLoop (s : State) (now : ℚ) (cbFn : Bool) (frameRate : JSVal) :
    Except TickerError (Nat × State) :=
  createTickerCallback s now cbFn [] JSVal.infinity
    (if truthy frameRate then jsDiv1000 frameRate else JSVal.num 1)

/-- `clearTickerCallback`: remove the entry with the given id from the
registry (`Map.delete` / `delete tickerCallbacks[index]`); a total
function, it cannot throw. -/
def clearTickerCallback (s : State) (index : Nat) : State :=
  { s with tickerCallbacks := s.tickerCallbacks.filter (fun p => decide (p.1 ≠ index)) }

/-- The `clearTimeout` wrapper, an alias of `clearTickerCallback`. -/
def clearTimeout (s : State) (index : Nat) : State := clearTickerCallback s index

/-- The `clearInterval` wrapper, an alias of `clearTickerCallback`. -/
def clearInterval (s : State) (index : Nat) : State := clearTickerCallback s index

/-- The `clearCounter` wrapper, an alias of `clearTickerCallback`. -/
def clearCounter (s : State) (index : Nat) : State := clearTickerCallback s index

/-- The `cancelAnimationFrame` wrapper, an alias of
`clearTickerCallback`. -/
def cancelAnimationFrame (s : State) (index : Nat) : State := clearTickerCallback s index

/-- The `clearAnimationLoop` wrapper, an alias of
`clearTickerCallback`. -/
def clearAnimationLoop (s : State) (index : Nat) : State := clearTickerCallback s index

/-- The `useScopeFunctions` setter: a no-op when set to the value it
already holds, otherwise rebind all six host symbols and record the new
flag. -/
def setUseScopeFunctions (s : State) (value : Bool) : State :=
  if value ≠ s.useScopeFunctionsFlag then
    { s with
      bindings := if value then originalBindings else managedBindings,
      useScopeFunctionsFlag := value }
  else s

/-- `start()`: when stopped, switch to managed mode, mark running,
rebaseline `currentTime` to the current timestamp and request the first
frame; when already running, a no-op. -/
def start (s : State) (now : ℚ) : State :=
  if s.running then s
  else
    let s := setUseScopeFunctions s false
    { s with running := true, currentTime := now, framePending := true }

/-- `stop()`: mark stopped, cancel the in-flight frame request, restore
native mode.  The registry is untouched. -/
def stop (s : State) : State :=
  setUseScopeFunctions { s with running := false, framePending := false } true

/-- The `maxFrameRate` getter: the last delta rounded to the nearest
multiple of 30 frames per second, defaulting to 60 with no delta. -/
def maxFrameRate (s : State) : ℚ :=
  if s.delta ≠ 0 then ((jsRound (1000 / s.delta / 30) * 30 : ℤ) : ℚ) else 60

/-- `storeFrameRateHistory`: for a strictly positive delta, prepend the
instantaneous frame rate and truncate the history to 120 samples when it
exceeds that length. -/
def storeFrameRateHistory (s : State) : State :=
  if 0 < s.delta then
    let fr := min (1000 / s.delta) (maxFrameRate s)
    let h := fr :: s.frameRateHistory
    { s with frameRateHistory := if 120 < h.length then h.take 120 else h }
  else s

/-- One frame delivery (the body of the closure created by
`playAnimationFrame`), at host timestamp `now`: when running, compute
the delta against the previous timestamp (zero when that timestamp is
zero), run the tick when the delta is nonzero, record the timestamp and
the frame-rate sample, and request the next frame.  Returns the new
state and the invocations the tick performed. -/
def frameStep (s : State) (now : ℚ) : State × List Invocation :=
  if s.framePending && s.running then
    let δ := if s.currentTime ≠ 0 then now - s.currentTime else 0
    let p := if δ ≠ 0 then tick δ s.tickerCallbacks else (s.tickerCallbacks, [])
    (storeFrameRateHistory
      { s with delta := δ, tickerCallbacks := p.1, currentTime := now, framePending := true },
     p.2)
  else if s.framePending then ({ s with framePending := false }, [])
  else (s, [])

/-- A public scheduler operation, for stating whole-lifetime
invariants: the five registration kinds, cancellation, a frame delivery,
and the start/stop lifecycle. -/
inductive Op where
  | opSetTimeout (now : ℚ) (cbFn : Bool) (params : List Param) (time : JSVal)
  | opSetInterval (now : ℚ) (cbFn : Bool) (params : List Param) (time : JSVal)
  | opSetCounter (now : ℚ) (cbFn : Bool) (params : List Param) (time repeats : JSVal)
  | opRequestAnimationFrame (now : ℚ) (cbFn : Bool)
  | opSetAnimationLoop (now : ℚ) (cbFn : Bool) (frameRate : JSVal)
  | opClear (index : Nat)
  | opFrame (now : ℚ)
  | opStart (now : ℚ)
  | opStop

/-- Interpret the result of a registration call: a thrown validation
error leaves the state unchanged and returns no id. -/
def applyReg (s : State) (r : Except TickerError (Nat × State)) : State × Option Nat :=
  match r with
  | .ok (i, s') => (s', some i)
  | .error _ => (s, none)

/-- Apply one operation, returning the new state and the id the
operation returned, if it was a successful registration. -/
def applyOp (s : State) : Op → State × Option Nat
  | .opSetTimeout now cbFn ps time => applyReg s (setTimeout s now cbFn ps time)
  | .opSetInterval now cbFn ps time => applyReg s (setInterval s now cbFn ps time)
  | .opSetCounter now cbFn ps time repeats => applyReg s (setCounter s now cbFn ps time repeats)
  | .opRequestAnimationFrame now cbFn => applyReg s (requestAnimationFrame s now cbFn)
  | .opSetAnimationLoop now cbFn frameRate => applyReg s (setAnimationLoop s now cbFn frameRate)
  | .opClear index => (clearTickerCallback s index, none)
  | .opFrame now => ((frameStep s now).1, none)
  | .opStart now => (start s now, none)
  | .opStop => (stop s, none)

/-- Run a sequence of operations, collecting every id returned by a
successful registration, in order. -/
def runOps : State → List Op → State × List Nat
  | s, [] => (s, [])
  | s, op :: ops =>
    let p := applyOp s op
    let q := runOps p.1 ops
    (q.1, p.2.toList ++ q.2)

/-- An entry of the legacy `src/ticker-service.js` registry, for the
effectful tick model: the callback is modelled by its observable effect
on the registry, the list of ids it cancels when fired. -/
structure JsEntry where
  cancels : List Nat
  repeats : JSVal
  delay : JSVal
  count : Nat
  executionTime : ℚ
  totalTime : ℚ
deriving DecidableEq

/-- The legacy registry: a plain object keyed by integer ids, which
iterates in ascending (= insertion) order. -/
abbrev JsRegistry := List (Nat × JsEntry)

/-- In-place mutation of the entry stored under a key; a no-op when the
key is absent (the object was already detached from the registry). -/
def jsUpdate (reg : JsRegistry) (i : Nat) (e : JsEntry) : JsRegistry :=
  reg.map (fun p => if p.1 = i then (i, e) else p)

/-- The effect of a fired callback: cancel each listed id
(`clearTickerCallback` on the live registry). -/
def jsCancelAll (reg : JsRegistry) (l : List Nat) : JsRegistry :=
  reg.filter (fun p => decide (p.1 ∉ l))

/-- The loop body of `tick` in `src/ticker-service.js`: iterate over the
key snapshot taken at tick start, looking each key up in the live
registry.  A lookup of a key cancelled mid-tick yields `undefined` and
the field access `ticker.totalTime` throws a TypeError, modelled as
`none`. -/
def tickJSGo (δ : ℚ) : List Nat → JsRegistry → Option JsRegistry
  | [], reg => some reg
  | k :: ks, reg =>
    match reg.lookup k with
    | none => none
    | some t =>
      let totalTime := t.totalTime + δ
      let tickerTime := totalTime - t.executionTime
      let reg1 := jsUpdate reg k { t with totalTime := totalTime }
      if jsGe tickerTime t.delay then
        let reg2 := jsCancelAll reg1 t.cancels
        let reg3 := jsUpdate reg2 k
          { t with totalTime := totalTime, count := t.count + 1, executionTime := totalTime }
        let reg4 := if jsCountGe (t.count + 1) t.repeats
          then reg3.filter (fun p => decide (p.1 ≠ k)) else reg3
        tickJSGo δ ks reg4
      else tickJSGo δ ks reg1

/-- `tick` from `src/ticker-service.js`: snapshot the keys
(`Object.keys`), then run the loop over the live registry. -/
def tickJS (δ : ℚ) (reg : JsRegistry) : Option JsRegistry :=
  tickJSGo δ (reg.map Prod.fst) reg

/-- Concrete registry for exercising the legacy tick: the first entry's
callback cancels the second entry. -/
def c4EntryA : JsEntry := ⟨[10001], JSVal.infinity, JSVal.num 1, 0, 0, 0⟩

/-- Concrete registry for exercising the legacy tick: an ordinary
repeating entry, cancelled mid-tick by `c4EntryA`. -/
def c4EntryB : JsEntry := ⟨[], JSVal.infinity, JSVal.num 1, 0, 0, 0⟩

/-- The two-entry registry on which the legacy tick crashes. -/
def c4Reg : JsRegistry := [(10000, c4EntryA), (10001, c4EntryB)]

/-- Concrete entry for exercising the tick: one param, repeat bound 2,
delay 10, freshly registered. -/
def c1E : TickerCallback := ⟨true, [7], JSVal.num 2, JSVal.num 10, 0, 0, 0⟩

/-- Singleton registry holding `c1E`. -/
def c1Reg : Registry := [(10000, c1E)]

end TickerService

namespace TickerService

/-! ### Association-list and tick projection lemmas -/

theorem lookup_eq_none_of_not_mem_keys {β : Type} {l : List (Nat × β)} {i : Nat}
    (h : i ∉ l.map Prod.fst) : l.lookup i = none := by
  induction l with
  | nil => rfl
  | cons p rest ih =>
    obtain ⟨j, e⟩ := p
    simp only [List.map_cons, List.mem_cons, not_or] at h
    have hb : (i == j) = false := beq_eq_false_iff_ne.mpr h.1
    simp only [List.lookup, hb]
    exact ih h.2

theorem mem_of_lookup_eq_some {β : Type} {l : List (Nat × β)} {i : Nat} {e : β}
    (h : l.lookup i = some e) : (i, e) ∈ l := by
  induction l with
  | nil => simp [List.lookup] at h
  | cons p rest ih =>
    obtain ⟨j, f⟩ := p
    by_cases hij : i = j
    · subst hij
      simp [List.lookup] at h
      simp [h]
    · simp only [List.lookup, beq_eq_false_iff_ne .. |>.mpr hij] at h
      exact List.mem_cons_of_mem _ (ih h)

theorem tick_keys_sublist (δ : ℚ) (reg : Registry) :
    ((tick δ reg).1.map Prod.fst).Sublist (reg.map Prod.fst) := by
  induction reg with
  | nil => simp [tick]
  | cons p rest ih =>
    obtain ⟨i, t⟩ := p
    by_cases hr : (tickEntry δ t).2.2
    · simpa [tick, hr] using ih.cons i
    · simpa [tick, hr] using ih.cons₂ i

theorem tick_inv_mem (δ : ℚ) (reg : Registry) :
    ∀ p ∈ (tick δ reg).2, p.1 ∈ reg.map Prod.fst := by
  induction reg with
  | nil => simp [tick]
  | cons q rest ih =>
    obtain ⟨i, t⟩ := q
    intro p hp
    simp only [tick] at hp
    rcases h : (tickEntry δ t).2.1 with _ | args
    · rw [h] at hp
      exact List.mem_cons_of_mem _ (ih p hp)
    · rw [h] at hp
      rcases List.mem_cons.mp hp with hp | hp
      · simp [hp]
      · exact List.mem_cons_of_mem _ (ih p hp)

theorem invocationsOf_tick_of_not_mem (δ : ℚ) (reg : Registry) {i : Nat}
    (h : i ∉ reg.map Prod.fst) : invocationsOf i (tick δ reg).2 = [] := by
  rw [invocationsOf, List.filter_eq_nil_iff]
  intro p hp
  simp only [decide_eq_true_eq]
  exact fun hpi => h (hpi ▸ tick_inv_mem δ reg p hp)

theorem tick_spec (δ : ℚ) (reg : Registry) (i : Nat) (e : TickerCallback)
    (hnd : (reg.map Prod.fst).Nodup) (hmem : (i, e) ∈ reg) :
    (tick δ reg).1.lookup i =
      (if (tickEntry δ e).2.2 then none else some (tickEntry δ e).1) ∧
    invocationsOf i (tick δ reg).2 =
      ((tickEntry δ e).2.1.elim [] fun a => [(i, a)]) := by
  induction reg with
  | nil => cases hmem
  | cons q rest ih =>
    obtain ⟨j, f⟩ := q
    simp only [List.map_cons, List.nodup_cons] at hnd
    rcases List.mem_cons.mp hmem with heq | hmem'
    · obtain ⟨hi, he⟩ := Prod.mk.injEq .. ▸ heq
      subst hi
      subst he
      have hrest : i ∉ (tick δ rest).1.map Prod.fst :=
        fun hmm => hnd.1 ((tick_keys_sublist δ rest).subset hmm)
      constructor
      · by_cases hr : (tickEntry δ e).2.2
        · simp [tick, hr, lookup_eq_none_of_not_mem_keys hrest]
        · simp [tick, hr, List.lookup]
      · have hnil : invocationsOf i (tick δ rest).2 = [] :=
          invocationsOf_tick_of_not_mem δ rest hnd.1
        rcases hargs : (tickEntry δ e).2.1 with _ | args
        · simpa [tick, hargs, invocationsOf] using hnil
        · simpa [tick, hargs, invocationsOf] using congrArg (fun l => (i, args) :: l) hnil
    · have hik : i ∈ rest.map Prod.fst := by
        exact List.mem_map.mpr ⟨(i, e), hmem', rfl⟩
      have hij : i ≠ j := fun h => hnd.1 (h ▸ hik)
      obtain ⟨ih1, ih2⟩ := ih hnd.2 hmem'
      have hb : (i == j) = false := beq_eq_false_iff_ne.mpr hij
      have hji : j ≠ i := Ne.symm hij
      constructor
      · by_cases hr : (tickEntry δ f).2.2
        · simpa [tick, hr] using ih1
        · simpa [tick, List.lookup, hr, hb] using ih1
      · rcases hargs : (tickEntry δ f).2.1 with _ | args
        · simpa [tick, hargs, invocationsOf] using ih2
        · simpa [tick, hargs, invocationsOf, hji] using ih2

end TickerService

namespace TickerService

/-- C1: for every live registry entry and every tick with delta `d`, the
tick adds `d` to the entry's accumulated time (`totalTime`), computes
the time since the last firing as `totalTime - executionTime`, and when
that reaches `delay` it invokes the entry's action exactly once this
tick, with the caller's `params` followed by the time since last firing
and the firing count, in that order; it then increments `count` and sets
`executionTime` to the new `totalTime`.  When the threshold is not
reached, no invocation happens and only `totalTime` advances; the entry
fires at most once per tick, the excess time rolling forward. -/
theorem claim_C1 (δ : ℚ) (reg : Registry) (i : Nat) (e : TickerCallback)
    (hnd : (reg.map Prod.fst).Nodup) (hmem : (i, e) ∈ reg)
    (hfn : e.callbackIsFn = true) :
    (jsGe (e.totalTime + δ - e.executionTime) e.delay = true →
      invocationsOf i (tick δ reg).2 =
        [(i, e.params.map JSArg.extra ++
            [JSArg.num (e.totalTime + δ - e.executionTime), JSArg.num (e.count : ℚ)])] ∧
      (jsCountGe (e.count + 1) e.repeats = false →
        (tick δ reg).1.lookup i =
          some { e with totalTime := e.totalTime + δ, count := e.count + 1,
                        executionTime := e.totalTime + δ }) ∧
      (jsCountGe (e.count + 1) e.repeats = true → (tick δ reg).1.lookup i = none)) ∧
    (jsGe (e.totalTime + δ - e.executionTime) e.delay = false →
      invocationsOf i (tick δ reg).2 = [] ∧
      (tick δ reg).1.lookup i = some { e with totalTime := e.totalTime + δ }) := by
  obtain ⟨hl, hi⟩ := tick_spec δ reg i e hnd hmem
  constructor
  · intro hge
    have he : tickEntry δ e =
        ({ e with totalTime := e.totalTime + δ, count := e.count + 1,
                  executionTime := e.totalTime + δ },
         some (e.params.map JSArg.extra ++
            [JSArg.num (e.totalTime + δ - e.executionTime), JSArg.num (e.count : ℚ)]),
         jsCountGe (e.count + 1) e.repeats) := by
      simp [tickEntry, hge, hfn]
    rw [he] at hl hi
    refine ⟨by simpa using hi, fun hc => ?_, fun hc => ?_⟩
    · rw [hl]
      simp [hc]
    · rw [hl]
      simp [hc]
  · intro hge
    have he : tickEntry δ e = ({ e with totalTime := e.totalTime + δ }, none, false) := by
      simp [tickEntry, hge]
    rw [he] at hl hi
    exact ⟨by simpa using hi, by simpa using hl⟩

/-- Witness for C1: a fresh two-repeat entry with delay 10 under a
delta-25 tick fires exactly once, with arguments `param, 25, 0`, and is
updated in place. -/
theorem claim_C1_witness :
    invocationsOf 10000 (tick 25 c1Reg).2 =
      [(10000, [JSArg.extra 7, JSArg.num 25, JSArg.num 0])] ∧
    (tick 25 c1Reg).1.lookup 10000 =
      some ⟨true, [7], JSVal.num 2, JSVal.num 10, 1, 25, 25⟩ := by
  have h := (claim_C1 25 c1Reg 10000 c1E (by simp [c1Reg]) (by simp [c1Reg]) (by simp [c1E])).1
    (by norm_num [c1E, jsGe])
  obtain ⟨h1, h2, _⟩ := h
  constructor
  · rw [h1]
    norm_num [c1E]
  · rw [h2 (by norm_num [c1E, jsCountGe])]
    norm_num [c1E]

end TickerService

namespace TickerService

theorem invocationsOf_append (i : Nat) (a b : List Invocation) :
    invocationsOf i (a ++ b) = invocationsOf i a ++ invocationsOf i b := by
  simp [invocationsOf]

theorem tick_nodup (δ : ℚ) (reg : Registry) (hnd : (reg.map Prod.fst).Nodup) :
    ((tick δ reg).1.map Prod.fst).Nodup :=
  List.Nodup.sublist (tick_keys_sublist δ reg) hnd

theorem runTicks_absent (ds : List ℚ) : ∀ (reg : Registry) {i : Nat},
    i ∉ reg.map Prod.fst →
    (runTicks ds reg).1.lookup i = none ∧ invocationsOf i (runTicks ds reg).2 = [] := by
  induction ds with
  | nil =>
    intro reg i h
    exact ⟨lookup_eq_none_of_not_mem_keys h, rfl⟩
  | cons δ ds ih =>
    intro reg i h
    have h' : i ∉ (tick δ reg).1.map Prod.fst :=
      fun hm => h ((tick_keys_sublist δ reg).subset hm)
    obtain ⟨ih1, ih2⟩ := ih (tick δ reg).1 h'
    refine ⟨by simpa [runTicks] using ih1, ?_⟩
    have hnil : invocationsOf i (tick δ reg).2 = [] := by
      rw [invocationsOf, List.filter_eq_nil_iff]
      intro p hp
      simp only [decide_eq_true_eq]
      exact fun hpi => h (hpi ▸ tick_inv_mem δ reg p hp)
    simp [runTicks, invocationsOf_append, hnil, ih2]

theorem not_mem_keys_of_lookup_eq_none {β : Type} {l : List (Nat × β)} {i : Nat}
    (h : l.lookup i = none) : i ∉ l.map Prod.fst := by
  induction l with
  | nil => simp
  | cons p rest ih =>
    obtain ⟨j, f⟩ := p
    by_cases hij : i = j
    · subst hij
      simp [List.lookup] at h
    · simp only [List.lookup, beq_eq_false_iff_ne .. |>.mpr hij] at h
      simp only [List.map_cons, List.mem_cons, not_or]
      exact ⟨hij, ih h⟩

theorem counter_run (d : ℚ) (N : Nat) (i : Nat) :
    ∀ (ds : List ℚ) (reg : Registry) (e : TickerCallback),
    (reg.map Prod.fst).Nodup → (i, e) ∈ reg →
    e.callbackIsFn = true → e.repeats = JSVal.num (N : ℚ) → e.delay = JSVal.num d →
    e.count < N → e.totalTime - e.executionTime ≤ 0 →
    N - e.count ≤ ds.length → (∀ δ ∈ ds, d - (e.totalTime - e.executionTime) ≤ δ) →
    (invocationsOf i (runTicks ds reg).2).length = N - e.count ∧
    (runTicks ds reg).1.lookup i = none := by
  intro ds
  induction ds with
  | nil =>
    intro reg e _ _ _ _ _ hcount _ hlen _
    simp only [List.length_nil, Nat.le_zero] at hlen
    omega
  | cons δ ds ih =>
    intro reg e hnd hmem hfn hrep hdel hcount hdef hlen hδ
    have hge : jsGe (e.totalTime + δ - e.executionTime) e.delay = true := by
      rw [hdel]
      simp only [jsGe, decide_eq_true_eq]
      have := hδ δ (List.mem_cons_self δ ds)
      linarith
    have he : tickEntry δ e =
        ({ e with totalTime := e.totalTime + δ, count := e.count + 1,
                  executionTime := e.totalTime + δ },
         some (e.params.map JSArg.extra ++
            [JSArg.num (e.totalTime + δ - e.executionTime), JSArg.num (e.count : ℚ)]),
         jsCountGe (e.count + 1) e.repeats) := by
      simp [tickEntry, hge, hfn]
    have hcg : jsCountGe (e.count + 1) e.repeats = decide (N ≤ e.count + 1) := by
      rw [hrep]
      simp only [jsCountGe]
      exact decide_eq_decide.mpr (by exact_mod_cast Iff.rfl)
    have hbool : (tickEntry δ e).2.2 = decide (N ≤ e.count + 1) := by
      rw [he, hcg]
    have hfst : (tickEntry δ e).1 =
        { e with totalTime := e.totalTime + δ, count := e.count + 1,
                 executionTime := e.totalTime + δ } := by
      rw [he]
    have hsnd : (tickEntry δ e).2.1 =
        some (e.params.map JSArg.extra ++
            [JSArg.num (e.totalTime + δ - e.executionTime), JSArg.num (e.count : ℚ)]) := by
      rw [he]
    obtain ⟨hl, hi⟩ := tick_spec δ reg i e hnd hmem
    rw [hbool, hfst] at hl
    rw [hsnd] at hi
    simp only [Option.elim_some] at hi
    have hrun1 : (runTicks (δ :: ds) reg).1 = (runTicks ds (tick δ reg).1).1 := by
      simp [runTicks]
    have hrun2 : invocationsOf i (runTicks (δ :: ds) reg).2 =
        invocationsOf i (tick δ reg).2 ++ invocationsOf i (runTicks ds (tick δ reg).1).2 := by
      simp [runTicks, invocationsOf_append]
    by_cases hNk : N ≤ e.count + 1
    · rw [if_pos (decide_eq_true hNk)] at hl
      have habs := not_mem_keys_of_lookup_eq_none hl
      obtain ⟨habs1, habs2⟩ := runTicks_absent ds (tick δ reg).1 habs
      constructor
      · rw [hrun2, hi, habs2]
        simp only [List.length_append, List.length_nil, List.length_cons]
        omega
      · rw [hrun1]
        exact habs1
    · rw [if_neg (by simpa using hNk)] at hl
      have hmem' := mem_of_lookup_eq_some hl
      have hnd' := tick_nodup δ reg hnd
      obtain ⟨ih1, ih2⟩ := ih (tick δ reg).1
        { e with totalTime := e.totalTime + δ, count := e.count + 1,
                 executionTime := e.totalTime + δ }
        hnd' hmem' hfn hrep hdel
        (by show e.count + 1 < N
            omega)
        (by show e.totalTime + δ - (e.totalTime + δ) ≤ 0
            simp)
        (by show N - (e.count + 1) ≤ ds.length
            simp only [List.length_cons] at hlen
            omega)
        (by
          intro δ' hδ'
          show d - (e.totalTime + δ - (e.totalTime + δ)) ≤ δ'
          have h1 := hδ δ' (List.mem_cons_of_mem δ hδ')
          have h2 : e.totalTime + δ - (e.totalTime + δ) = 0 := by ring
          rw [h2]
          linarith)
      constructor
      · rw [hrun2, hi]
        have hlen' : (invocationsOf i (runTicks ds (tick δ reg).1).2).length =
            N - (e.count + 1) := ih1
        simp only [List.length_append, List.length_cons, List.length_nil, hlen']
        omega
      · rw [hrun1]
        exact ih2

end TickerService

namespace TickerService

/-- Concrete entry for the bounded-repeat witness: repeat bound 2,
delay 10, freshly registered. -/
def c2E : TickerCallback := ⟨true, [], JSVal.num 2, JSVal.num 10, 0, 0, 0⟩

/-- Singleton registry holding `c2E`. -/
def c2Reg : Registry := [(10000, c2E)]

/-- C2: an entry registered with repeat bound `N` (a positive integer)
fires exactly `N` times over any tick stream with sufficient cumulative
delta (here: at least `N` ticks, each delta at least `delay` plus the
registration offset), and is removed from the registry in the very tick
of its `N`-th firing: it is already absent after the first `N` ticks,
and the whole stream never produces an `N+1`-st invocation.  The last
conjunct is the removal rule itself: any entry whose firing brings
`count` up to its repeat bound is gone from the registry the same
tick. -/
theorem claim_C2 (N : Nat) (d t0 : ℚ) (ps : List Param) (i : Nat) (reg : Registry)
    (deltas : List ℚ)
    (hN : 1 ≤ N) (ht0 : t0 ≤ 0)
    (hnd : (reg.map Prod.fst).Nodup)
    (hmem : (i, (⟨true, ps, JSVal.num (N : ℚ), JSVal.num d, 0, 0, t0⟩ : TickerCallback)) ∈ reg)
    (hlen : N ≤ deltas.length)
    (hδ : ∀ δ ∈ deltas, d - t0 ≤ δ) :
    (invocationsOf i (runTicks deltas reg).2).length = N ∧
    (runTicks deltas reg).1.lookup i = none ∧
    (runTicks (deltas.take N) reg).1.lookup i = none ∧
    (∀ (δ : ℚ) (reg' : Registry) (j : Nat) (f : TickerCallback),
      (reg'.map Prod.fst).Nodup → (j, f) ∈ reg' → (tickEntry δ f).2.2 = true →
      (tick δ reg').1.lookup j = none) := by
  have hfull := counter_run d N i deltas reg _ hnd hmem rfl rfl rfl
    (by show 0 < N
        omega)
    (by show t0 - 0 ≤ 0
        simpa using ht0)
    (by show N - 0 ≤ deltas.length
        simpa using hlen)
    (by intro δ hd
        show d - (t0 - 0) ≤ δ
        simpa using hδ δ hd)
  have htake := counter_run d N i (deltas.take N) reg _ hnd hmem rfl rfl rfl
    (by show 0 < N
        omega)
    (by show t0 - 0 ≤ 0
        simpa using ht0)
    (by show N - 0 ≤ (deltas.take N).length
        simp only [List.length_take]
        omega)
    (by intro δ hd
        show d - (t0 - 0) ≤ δ
        simpa using hδ δ (List.take_subset N deltas hd))
  refine ⟨by simpa using hfull.1, hfull.2, htake.2, ?_⟩
  intro δ reg' j f hnd' hmem' hrm
  have := (tick_spec δ reg' j f hnd' hmem').1
  rwa [if_pos hrm] at this

/-- Witness for C2: a fresh two-repeat, delay-10 entry under the tick
stream `[10, 12]` fires exactly twice and is gone from the registry. -/
theorem claim_C2_witness :
    (invocationsOf 10000 (runTicks [10, 12] c2Reg).2).length = 2 ∧
    (runTicks [10, 12] c2Reg).1.lookup 10000 = none := by
  have h := claim_C2 2 10 0 [] 10000 c2Reg [10, 12] (by norm_num) (by norm_num)
    (by simp [c2Reg]) (by norm_num [c2Reg, c2E]) (by norm_num)
    (by intro δ hd
        fin_cases hd <;> norm_num)
  exact ⟨h.1, h.2.1⟩

end TickerService

namespace TickerService

theorem setUseScopeFunctions_fields (s : State) (v : Bool) :
    (setUseScopeFunctions s v).currentIndex = s.currentIndex ∧
    (setUseScopeFunctions s v).currentTime = s.currentTime ∧
    (setUseScopeFunctions s v).delta = s.delta ∧
    (setUseScopeFunctions s v).running = s.running ∧
    (setUseScopeFunctions s v).framePending = s.framePending ∧
    (setUseScopeFunctions s v).frameRateHistory = s.frameRateHistory ∧
    (setUseScopeFunctions s v).tickerCallbacks = s.tickerCallbacks := by
  by_cases h : v ≠ s.useScopeFunctionsFlag <;> simp [setUseScopeFunctions, h]

theorem storeFrameRateHistory_fields (s : State) :
    (storeFrameRateHistory s).currentIndex = s.currentIndex ∧
    (storeFrameRateHistory s).currentTime = s.currentTime ∧
    (storeFrameRateHistory s).delta = s.delta ∧
    (storeFrameRateHistory s).running = s.running ∧
    (storeFrameRateHistory s).framePending = s.framePending ∧
    (storeFrameRateHistory s).useScopeFunctionsFlag = s.useScopeFunctionsFlag ∧
    (storeFrameRateHistory s).tickerCallbacks = s.tickerCallbacks := by
  by_cases h : 0 < s.delta <;> simp [storeFrameRateHistory, h]

/-- C3 counterexample: `setCounter` called with delay 0 and repeat count
0 throws the invalid-delay error, not the invalid-repeat-count error,
although the repeat count is nonpositive: delay validation runs
first. -/
theorem claim_C3_counterexample :
    jsLe0 (JSVal.num 0) = true ∧
    setCounter initState 0 true [] (JSVal.num 0) (JSVal.num 0) =
      Except.error TickerError.invalidDelay ∧
    TickerError.invalidDelay ≠ TickerError.invalidRepeat := by
  refine ⟨by norm_num [jsLe0], ?_, by simp⟩
  norm_num [setCounter, createTickerCallback, isNumber, jsLe0]

/-- C3 (amended): for `setInterval` and `setCounter`, a non-numeric or
nonpositive delay fails synchronously with the invalid-delay error; for
`setCounter` with a valid delay, a non-numeric or nonpositive repeat
count fails with the invalid-repeat-count error (delay is validated
first, so when both are invalid the invalid-delay error wins); on
success the current index is returned and the entry stored under it;
for `setTimeout`, a falsy delay is replaced by 1 and succeeds, while a
truthy invalid delay fails with the invalid-delay error. -/
theorem claim_C3 (s : State) (now : ℚ) (cbFn : Bool) (ps : List Param)
    (time repeats : JSVal) :
    ((!isNumber time || jsLe0 time) = true →
      setInterval s now cbFn ps time = Except.error TickerError.invalidDelay ∧
      setCounter s now cbFn ps time repeats = Except.error TickerError.invalidDelay) ∧
    ((!isNumber time || jsLe0 time) = false →
      (!isNumber repeats || jsLe0 repeats) = true →
      setCounter s now cbFn ps time repeats = Except.error TickerError.invalidRepeat) ∧
    ((!isNumber time || jsLe0 time) = false →
      setInterval s now cbFn ps time =
        Except.ok (s.currentIndex, registeredState s now cbFn ps JSVal.infinity time)) ∧
    ((!isNumber time || jsLe0 time) = false →
      (!isNumber repeats || jsLe0 repeats) = false →
      setCounter s now cbFn ps time repeats =
        Except.ok (s.currentIndex, registeredState s now cbFn ps repeats time)) ∧
    (truthy time = false →
      setTimeout s now cbFn ps time =
        Except.ok (s.currentIndex,
          registeredState s now cbFn ps (JSVal.num 1) (JSVal.num 1))) ∧
    (truthy time = true → (!isNumber time || jsLe0 time) = true →
      setTimeout s now cbFn ps time = Except.error TickerError.invalidDelay) ∧
    (truthy time = true → (!isNumber time || jsLe0 time) = false →
      setTimeout s now cbFn ps time =
        Except.ok (s.currentIndex, registeredState s now cbFn ps (JSVal.num 1) time)) := by
  refine ⟨fun h => ⟨?_, ?_⟩, fun h1 h2 => ?_, fun h1 => ?_, fun h1 h2 => ?_,
    fun ht => ?_, fun ht h1 => ?_, fun ht h1 => ?_⟩
  · simp [setInterval, createTickerCallback, h]
  · simp [setCounter, createTickerCallback, h]
  · simp [setCounter, createTickerCallback, h1, h2]
  · obtain ⟨ha', hb⟩ := Bool.or_eq_false_iff.mp h1
    have ha : isNumber time = true := by simpa using ha'
    simp [setInterval, createTickerCallback, ha, hb]
    try norm_num [isNumber, jsLe0]
  · simp [setCounter, createTickerCallback, h1, h2]
  · norm_num [setTimeout, createTickerCallback, ht, isNumber, jsLe0]
  · simp [setTimeout, createTickerCallback, ht, h1]
  · obtain ⟨ha', hb⟩ := Bool.or_eq_false_iff.mp h1
    have ha : isNumber time = true := by simpa using ha'
    simp [setTimeout, createTickerCallback, ht, ha, hb]
    try norm_num [isNumber, jsLe0]

/-- Witness for C3: with a valid delay of 5 and a repeat count of 0,
`setCounter` fails with the invalid-repeat-count error; with both valid,
it succeeds and returns the current index. -/
theorem claim_C3_witness :
    setCounter initState 0 true [] (JSVal.num 5) (JSVal.num 0) =
      Except.error TickerError.invalidRepeat ∧
    setCounter initState 0 true [] (JSVal.num 5) (JSVal.num 3) =
      Except.ok (10000, registeredState initState 0 true [] (JSVal.num 3) (JSVal.num 5)) := by
  constructor
  · exact (claim_C3 initState 0 true [] (JSVal.num 5) (JSVal.num 0)).2.1
      (by norm_num [isNumber, jsLe0]) (by norm_num [isNumber, jsLe0])
  · exact (claim_C3 initState 0 true [] (JSVal.num 5) (JSVal.num 3)).2.2.2.1
      (by norm_num [isNumber, jsLe0]) (by norm_num [isNumber, jsLe0])

/-- C4: the legacy tick of `src/ticker-service.js` snapshots the key set
but looks each key up in the live registry without a presence check;
when the first entry's callback cancels the second entry mid-tick, the
traversal crashes (reading `totalTime` of `undefined`) instead of
completing. -/
theorem claim_C4 : tickJS 5 c4Reg = none := by
  simp [tickJS, tickJSGo, c4Reg, c4EntryA, c4EntryB, jsUpdate, jsCancelAll,
    jsGe, jsCountGe, List.lookup]

/-- The `stop()` of the legacy `src/ticker-service.js` (lines 448-451):
it only clears the running flag and returns; it does not call
`cancelAnimationFrame` on the in-flight frame request and does not
touch `useScopeFunctions`, so the six host timer bindings stay wherever
they were. -/
def stopJS (s : State) : State := { s with running := false }

/-- C5: the claim holds of the `stop()` in `src/TickerService.ts` but
not of the `stop()` in `src/ticker-service.js`, which it also cites.
Evaluated at the failing input — a scheduler started from the initial
state (running, managed mode, one frame request in flight) — the legacy
stop leaves the frame request pending and the six host bindings still
redirected to the scheduler, restoring nothing; at the same state the
TypeScript stop does cancel the frame request, restore the original
bindings and native-mode flag, and leave the registry untouched. -/
theorem claim_C5 :
    (stopJS (start initState 1000)).running = false ∧
    (stopJS (start initState 1000)).framePending = true ∧
    (stopJS (start initState 1000)).bindings = managedBindings ∧
    (stopJS (start initState 1000)).useScopeFunctionsFlag = false ∧
    stopJS (start initState 1000) ≠ stop (start initState 1000) ∧
    (stop (start initState 1000)).running = false ∧
    (stop (start initState 1000)).framePending = false ∧
    (stop (start initState 1000)).bindings = originalBindings ∧
    (stop (start initState 1000)).useScopeFunctionsFlag = true ∧
    (stop (start initState 1000)).tickerCallbacks =
      (start initState 1000).tickerCallbacks := by
  have hstart : start initState 1000 =
      { currentIndex := 10000, currentTime := 1000, delta := 0, running := true,
        framePending := true, useScopeFunctionsFlag := false,
        bindings := managedBindings, frameRateHistory := [], tickerCallbacks := [] } := by
    simp [start, initState, setUseScopeFunctions, originalBindings, managedBindings]
  rw [hstart]
  refine ⟨rfl, rfl, rfl, rfl, ?_, ?_, ?_, ?_, ?_, ?_⟩ <;>
    simp [stop, stopJS, setUseScopeFunctions, managedBindings, originalBindings,
      State.mk.injEq, Bindings.mk.injEq]

end TickerService

namespace TickerService

theorem storeFrameRateHistory_delta (s : State) :
    (storeFrameRateHistory s).delta = s.delta := (storeFrameRateHistory_fields s).2.2.1

theorem storeFrameRateHistory_callbacks (s : State) :
    (storeFrameRateHistory s).tickerCallbacks = s.tickerCallbacks :=
  (storeFrameRateHistory_fields s).2.2.2.2.2.2

theorem storeFrameRateHistory_currentTime (s : State) :
    (storeFrameRateHistory s).currentTime = s.currentTime :=
  (storeFrameRateHistory_fields s).2.1

theorem storeFrameRateHistory_currentIndex (s : State) :
    (storeFrameRateHistory s).currentIndex = s.currentIndex :=
  (storeFrameRateHistory_fields s).1

theorem storeFrameRateHistory_running (s : State) :
    (storeFrameRateHistory s).running = s.running :=
  (storeFrameRateHistory_fields s).2.2.2.1

theorem storeFrameRateHistory_framePending (s : State) :
    (storeFrameRateHistory s).framePending = s.framePending :=
  (storeFrameRateHistory_fields s).2.2.2.2.1

theorem frameStep_proj (s : State) (now : ℚ) (hp : s.framePending = true)
    (hr : s.running = true) (hc : s.currentTime ≠ 0) :
    (frameStep s now).1.delta = now - s.currentTime ∧
    (frameStep s now).1.tickerCallbacks =
      (if now - s.currentTime ≠ 0 then (tick (now - s.currentTime) s.tickerCallbacks).1
       else s.tickerCallbacks) ∧
    (frameStep s now).2 =
      (if now - s.currentTime ≠ 0 then (tick (now - s.currentTime) s.tickerCallbacks).2
       else []) ∧
    (frameStep s now).1.currentTime = now ∧
    (frameStep s now).1.running = true ∧
    (frameStep s now).1.framePending = true ∧
    (frameStep s now).1.currentIndex = s.currentIndex := by
  by_cases hδ : now - s.currentTime ≠ 0 <;>
    simp [frameStep, hp, hr, hc, hδ, storeFrameRateHistory_delta,
      storeFrameRateHistory_callbacks, storeFrameRateHistory_currentTime,
      storeFrameRateHistory_currentIndex, storeFrameRateHistory_running,
      storeFrameRateHistory_framePending]

/-- The scheduler state after `start()` at timestamp 1000 and a
`setTimeout` registration (delay 10) at the same timestamp, used to
exercise the first frame delivered after `start()`. -/
def c6State : State :=
  (applyOp (start initState 1000) (Op.opSetTimeout 1000 true [] (JSVal.num 10))).1

/-- C6 counterexample: the very first frame delivered after `start()`
does not have a delta of zero and does perform tick work.  Starting at
timestamp 1000 with a delay-10 timeout registered, the first frame at
timestamp 1016 computes delta 16 and fires the callback. -/
theorem claim_C6_counterexample :
    (frameStep c6State 1016).1.delta = 16 ∧ (frameStep c6State 1016).2 ≠ [] := by
  have h : c6State =
      { currentIndex := 10001, currentTime := 1000, delta := 0, running := true,
        framePending := true, useScopeFunctionsFlag := false, bindings := managedBindings,
        frameRateHistory := [],
        tickerCallbacks :=
          [(10000, ⟨true, [], JSVal.num 1, JSVal.num 10, 0, 0, 0⟩)] } := by
    norm_num [c6State, applyOp, applyReg, setTimeout, createTickerCallback,
      registeredState, start, setUseScopeFunctions, initState, truthy, isNumber, jsLe0]
  rw [h]
  constructor
  · norm_num [frameStep, storeFrameRateHistory_delta]
  · norm_num [frameStep, tick, tickEntry, jsGe, jsCountGe]

/-- C6 (amended): `start()` from the stopped state records the start
timestamp as the new baseline, so the first frame delivered afterwards
computes its delta against that baseline (the idle gap before `start()`
is never charged); the delta is `frameTime - startTime`, not zero in
general, and the frame performs no tick work only in the degenerate case
where the frame's timestamp equals the start baseline (delta zero);
otherwise the tick runs with that delta. -/
theorem claim_C6 (s : State) (t now : ℚ) (hrun : s.running = false) (ht : t ≠ 0) :
    (start s t).currentTime = t ∧
    (frameStep (start s t) now).1.delta = now - t ∧
    (now = t → (frameStep (start s t) now).2 = [] ∧
      (frameStep (start s t) now).1.tickerCallbacks = s.tickerCallbacks) ∧
    (now ≠ t →
      (frameStep (start s t) now).1.tickerCallbacks = (tick (now - t) s.tickerCallbacks).1 ∧
      (frameStep (start s t) now).2 = (tick (now - t) s.tickerCallbacks).2) := by
  have hstart : start s t =
      { setUseScopeFunctions s false with
          running := true, currentTime := t, framePending := true } := by
    simp [start, hrun]
  have hp : (start s t).framePending = true := by rw [hstart]
  have hr : (start s t).running = true := by rw [hstart]
  have hc : (start s t).currentTime = t := by rw [hstart]
  have hcb : (start s t).tickerCallbacks = s.tickerCallbacks := by
    rw [hstart]
    exact (setUseScopeFunctions_fields s false).2.2.2.2.2.2
  have hcne : (start s t).currentTime ≠ 0 := by
    rw [hc]
    exact ht
  obtain ⟨p1, p2, p3, _⟩ := frameStep_proj (start s t) now hp hr hcne
  rw [hc] at p1 p2 p3
  rw [hcb] at p2 p3
  refine ⟨hc, p1, ?_, ?_⟩
  · intro hnt
    subst hnt
    exact ⟨by simpa using p3, by simpa using p2⟩
  · intro hnt
    have hδ : now - t ≠ 0 := sub_ne_zero.mpr hnt
    exact ⟨by simpa [hδ] using p2, by simpa [hδ] using p3⟩

/-- Witness for C6 (amended): starting at timestamp 5 with a first frame
arriving at the same timestamp 5 gives delta zero and no tick work. -/
theorem claim_C6_witness :
    initState.running = false ∧ ((5 : ℚ) ≠ 0) ∧
    (start initState 5).currentTime = 5 ∧
    (frameStep (start initState 5) 5).1.delta = 5 - 5 ∧
    ((frameStep (start initState 5) 5).2 = [] ∧
     (frameStep (start initState 5) 5).1.tickerCallbacks = initState.tickerCallbacks) := by
  have h := claim_C6 initState 5 5 rfl (by norm_num)
  exact ⟨rfl, by norm_num, h.1, h.2.1, h.2.2.1 rfl⟩

end TickerService

namespace TickerService

theorem applyReg_createTickerCallback (s : State) (now : ℚ) (cbFn : Bool)
    (ps : List Param) (rep del : JSVal) :
    applyReg s (createTickerCallback s now cbFn ps rep del) = (s, none) ∨
    applyReg s (createTickerCallback s now cbFn ps rep del) =
      (registeredState s now cbFn ps rep del, some s.currentIndex) := by
  unfold createTickerCallback
  by_cases h1 : (!isNumber del || jsLe0 del) = true
  · left
    simp [h1, applyReg]
  · by_cases h2 : (!isNumber rep || jsLe0 rep) = true
    · left
      simp [h1, h2, applyReg]
    · right
      simp [h1, h2, applyReg]

theorem frameStep_currentIndex (s : State) (now : ℚ) :
    (frameStep s now).1.currentIndex = s.currentIndex := by
  unfold frameStep
  by_cases h1 : (s.framePending && s.running) = true
  · simp [h1, storeFrameRateHistory_currentIndex]
  · by_cases h2 : s.framePending = true
    · have hr : s.running = false := by
        simp only [h2, Bool.true_and, Bool.not_eq_true] at h1
        exact h1
      simp [h1, h2, hr]
    · simp [h1, h2]

theorem start_currentIndex (s : State) (t : ℚ) :
    (start s t).currentIndex = s.currentIndex := by
  by_cases h : s.running = true
  · simp [start, h]
  · have := (setUseScopeFunctions_fields s false).1
    simp [start, h, this]

theorem stop_currentIndex (s : State) : (stop s).currentIndex = s.currentIndex :=
  (setUseScopeFunctions_fields { s with running := false, framePending := false } true).1

theorem applyOp_spec (s : State) (op : Op) :
    ((applyOp s op).2 = none ∧ (applyOp s op).1.currentIndex = s.currentIndex) ∨
    ((applyOp s op).2 = some s.currentIndex ∧
      (applyOp s op).1.currentIndex = s.currentIndex + 1) := by
  cases op with
  | opSetTimeout now cbFn ps time =>
    rcases applyReg_createTickerCallback s now cbFn ps (JSVal.num 1)
        (if truthy time then time else JSVal.num 1) with h | h
    · left
      simp [applyOp, setTimeout, h]
    · right
      simp [applyOp, setTimeout, h, registeredState]
  | opSetInterval now cbFn ps time =>
    rcases applyReg_createTickerCallback s now cbFn ps JSVal.infinity time with h | h
    · left
      simp [applyOp, setInterval, h]
    · right
      simp [applyOp, setInterval, h, registeredState]
  | opSetCounter now cbFn ps time repeats =>
    rcases applyReg_createTickerCallback s now cbFn ps repeats time with h | h
    · left
      simp [applyOp, setCounter, h]
    · right
      simp [applyOp, setCounter, h, registeredState]
  | opRequestAnimationFrame now cbFn =>
    rcases applyReg_createTickerCallback s now cbFn [] (JSVal.num 1) (JSVal.num 1) with h | h
    · left
      simp [applyOp, requestAnimationFrame, h]
    · right
      simp [applyOp, requestAnimationFrame, h, registeredState]
  | opSetAnimationLoop now cbFn frameRate =>
    rcases applyReg_createTickerCallback s now cbFn [] JSVal.infinity
        (if truthy frameRate then jsDiv1000 frameRate else JSVal.num 1) with h | h
    · left
      simp [applyOp, setAnimationLoop, h]
    · right
      simp [applyOp, setAnimationLoop, h, registeredState]
  | opClear index =>
    left
    simp [applyOp, clearTickerCallback]
  | opFrame now =>
    left
    simp [applyOp, frameStep_currentIndex]
  | opStart now =>
    left
    simp [applyOp, start_currentIndex]
  | opStop =>
    left
    simp [applyOp, stop_currentIndex]

theorem runOps_ids (ops : List Op) : ∀ s : State,
    (∀ j ∈ (runOps s ops).2, s.currentIndex ≤ j) ∧
    List.Pairwise (· < ·) (runOps s ops).2 := by
  induction ops with
  | nil =>
    intro s
    simp [runOps]
  | cons op ops ih =>
    intro s
    obtain ⟨iha, ihb⟩ := ih (applyOp s op).1
    rcases applyOp_spec s op with ⟨h1, h2⟩ | ⟨h1, h2⟩
    · constructor
      · intro j hj
        simp only [runOps, h1, Option.toList_none, List.nil_append] at hj
        exact h2 ▸ iha j hj
      · simp only [runOps, h1, Option.toList_none, List.nil_append]
        exact ihb
    · constructor
      · intro j hj
        simp only [runOps, h1, Option.toList_some, List.cons_append, List.nil_append,
          List.mem_cons] at hj
        rcases hj with rfl | hj
        · exact le_rfl
        · have := iha j hj
          omega
      · simp only [runOps, h1, Option.toList_some, List.cons_append, List.nil_append]
        refine List.Pairwise.cons ?_ ihb
        intro j hj
        have := iha j hj
        omega

/-- C7: across any sequence of scheduler operations from the initial
state, the ids returned by successful registrations (of any of the five
kinds) are strictly increasing: each is strictly greater than every
previously returned id, and no id is ever reused, even after the entry
it named has been removed by cancellation or self-removal. -/
theorem claim_C7 (ops : List Op) :
    List.Pairwise (· < ·) (runOps initState ops).2 ∧
    (runOps initState ops).2.Nodup :=
  ⟨(runOps_ids ops initState).2,
   List.Pairwise.imp ne_of_lt (runOps_ids ops initState).2⟩

end TickerService

namespace TickerService

theorem lookup_filter_self {β : Type} (l : List (Nat × β)) (i : Nat) :
    (l.filter (fun p => decide (p.1 ≠ i))).lookup i = none := by
  apply lookup_eq_none_of_not_mem_keys
  intro hm
  obtain ⟨⟨j, f⟩, hmem, hj⟩ := List.mem_map.mp hm
  simp only [List.mem_filter, decide_eq_true_eq] at hmem
  exact hmem.2 (by simpa using hj)

theorem lookup_filter_ne {β : Type} (l : List (Nat × β)) (i j : Nat) (hij : j ≠ i) :
    (l.filter (fun p => decide (p.1 ≠ i))).lookup j = l.lookup j := by
  induction l with
  | nil => rfl
  | cons p rest ih =>
    obtain ⟨k, f⟩ := p
    by_cases hk : k = i
    · subst hk
      simp only [List.filter_cons, decide_eq_true_eq]
      rw [if_neg (by simp)]
      simp only [List.lookup, beq_eq_false_iff_ne .. |>.mpr hij]
      exact ih
    · simp only [List.filter_cons, decide_eq_true_eq]
      rw [if_pos (by simpa using hk)]
      by_cases hjk : j = k
      · subst hjk
        simp [List.lookup]
      · simp only [List.lookup, beq_eq_false_iff_ne .. |>.mpr hjk]
        exact ih

/-- C8: cancelling an id removes its entry (it is no longer found),
leaves every other entry untouched, is a silent no-op on a state whose
registry does not hold the id (never issued, already cancelled, or
already self-removed) — the state is returned entirely unchanged and
nothing is thrown, the operation being a total function — and is
idempotent.  The five public cancellation operations are all aliases of
the single `clearTickerCallback`, so the behaviour does not depend on
which registration operation created the entry. -/
theorem claim_C8 (s : State) (i : Nat) :
    (clearTickerCallback s i).tickerCallbacks.lookup i = none ∧
    (∀ j, j ≠ i →
      (clearTickerCallback s i).tickerCallbacks.lookup j = s.tickerCallbacks.lookup j) ∧
    (i ∉ s.tickerCallbacks.map Prod.fst → clearTickerCallback s i = s) ∧
    clearTickerCallback (clearTickerCallback s i) i = clearTickerCallback s i ∧
    clearTimeout s i = clearTickerCallback s i ∧
    clearInterval s i = clearTickerCallback s i ∧
    clearCounter s i = clearTickerCallback s i ∧
    cancelAnimationFrame s i = clearTickerCallback s i ∧
    clearAnimationLoop s i = clearTickerCallback s i := by
  refine ⟨lookup_filter_self _ i, fun j hij => lookup_filter_ne _ i j hij, ?_, ?_,
    rfl, rfl, rfl, rfl, rfl⟩
  · intro habs
    have hself : s.tickerCallbacks.filter (fun p => decide (p.1 ≠ i)) = s.tickerCallbacks := by
      apply List.filter_eq_self.mpr
      intro p hp
      simp only [decide_eq_true_eq]
      intro hpi
      exact habs (hpi ▸ List.mem_map.mpr ⟨p, hp, rfl⟩)
    simp only [clearTickerCallback]
    rw [hself]
  · have hff : (s.tickerCallbacks.filter (fun p => decide (p.1 ≠ i))).filter
        (fun p => decide (p.1 ≠ i)) =
        s.tickerCallbacks.filter (fun p => decide (p.1 ≠ i)) :=
      List.filter_eq_self.mpr (fun p hp => (List.mem_filter.mp hp).2)
    simp only [clearTickerCallback]
    rw [hff]

/-- State with one registered entry, for the cancellation witness. -/
def c8S : State := { initState with tickerCallbacks := [(10000, c1E)] }

/-- Witness for C8 on a one-entry registry: cancelling id 10000 removes
it, leaves id 99 lookups unchanged, cancelling the absent id 10005 is an
exact no-op, and cancelling twice equals cancelling once. -/
theorem claim_C8_witness :
    (clearTickerCallback c8S 10000).tickerCallbacks.lookup 10000 = none ∧
    (99 : Nat) ≠ 10000 ∧
    (clearTickerCallback c8S 10000).tickerCallbacks.lookup 99 =
      c8S.tickerCallbacks.lookup 99 ∧
    (10005 : Nat) ∉ c8S.tickerCallbacks.map Prod.fst ∧
    clearTickerCallback c8S 10005 = c8S ∧
    clearTickerCallback (clearTickerCallback c8S 10000) 10000 =
      clearTickerCallback c8S 10000 := by
  refine ⟨(claim_C8 c8S 10000).1, by decide, (claim_C8 c8S 10000).2.1 99 (by decide),
    by simp [c8S], (claim_C8 c8S 10005).2.2.1 (by simp [c8S]),
    (claim_C8 c8S 10000).2.2.2.1⟩

end TickerService

namespace TickerService

theorem storeFrameRateHistory_length (s : State) (h : s.frameRateHistory.length ≤ 120) :
    (storeFrameRateHistory s).frameRateHistory.length ≤ 120 := by
  by_cases hd : 0 < s.delta
  · simp only [storeFrameRateHistory, if_pos hd]
    by_cases hl : 120 < (min (1000 / s.delta) (maxFrameRate s) :: s.frameRateHistory).length
    · simp only [if_pos hl, List.length_take]
      omega
    · simp only [if_neg hl]
      simp only [List.length_cons, not_lt] at hl ⊢
      omega
  · simpa [storeFrameRateHistory, hd] using h

theorem frameStep_history (s : State) (now : ℚ) (h : s.frameRateHistory.length ≤ 120) :
    (frameStep s now).1.frameRateHistory.length ≤ 120 := by
  unfold frameStep
  by_cases h1 : (s.framePending && s.running) = true
  · simp only [if_pos h1]
    exact storeFrameRateHistory_length _ h
  · by_cases h2 : s.framePending = true
    · have hr : s.running = false := by
        simp only [h2, Bool.true_and, Bool.not_eq_true] at h1
        exact h1
      simp only [h1, h2, hr]
      simpa using h
    · simp only [h1, h2]
      simpa [Bool.and_eq_true] using h

theorem start_history (s : State) (t : ℚ) :
    (start s t).frameRateHistory = s.frameRateHistory := by
  by_cases h : s.running = true
  · simp [start, h]
  · simp [start, h, (setUseScopeFunctions_fields s false).2.2.2.2.2.1]

theorem stop_history (s : State) : (stop s).frameRateHistory = s.frameRateHistory :=
  (setUseScopeFunctions_fields { s with running := false, framePending := false }
    true).2.2.2.2.2.1

theorem applyOp_history (s : State) (op : Op) (h : s.frameRateHistory.length ≤ 120) :
    (applyOp s op).1.frameRateHistory.length ≤ 120 := by
  cases op with
  | opSetTimeout now cbFn ps time =>
    rcases applyReg_createTickerCallback s now cbFn ps (JSVal.num 1)
        (if truthy time then time else JSVal.num 1) with hh | hh
    · simpa [applyOp, setTimeout, hh] using h
    · simpa [applyOp, setTimeout, hh, registeredState] using h
  | opSetInterval now cbFn ps time =>
    rcases applyReg_createTickerCallback s now cbFn ps JSVal.infinity time with hh | hh
    · simpa [applyOp, setInterval, hh] using h
    · simpa [applyOp, setInterval, hh, registeredState] using h
  | opSetCounter now cbFn ps time repeats =>
    rcases applyReg_createTickerCallback s now cbFn ps repeats time with hh | hh
    · simpa [applyOp, setCounter, hh] using h
    · simpa [applyOp, setCounter, hh, registeredState] using h
  | opRequestAnimationFrame now cbFn =>
    rcases applyReg_createTickerCallback s now cbFn [] (JSVal.num 1) (JSVal.num 1) with hh | hh
    · simpa [applyOp, requestAnimationFrame, hh] using h
    · simpa [applyOp, requestAnimationFrame, hh, registeredState] using h
  | opSetAnimationLoop now cbFn frameRate =>
    rcases applyReg_createTickerCallback s now cbFn [] JSVal.infinity
        (if truthy frameRate then jsDiv1000 frameRate else JSVal.num 1) with hh | hh
    · simpa [applyOp, setAnimationLoop, hh] using h
    · simpa [applyOp, setAnimationLoop, hh, registeredState] using h
  | opClear index => simpa [applyOp, clearTickerCallback] using h
  | opFrame now =>
    simpa [applyOp] using frameStep_history s now h
  | opStart now =>
    simpa [applyOp, start_history] using h
  | opStop =>
    simpa [applyOp, stop_history] using h

theorem runOps_history (ops : List Op) : ∀ s : State,
    s.frameRateHistory.length ≤ 120 →
    (runOps s ops).1.frameRateHistory.length ≤ 120 := by
  induction ops with
  | nil =>
    intro s h
    simpa [runOps] using h
  | cons op ops ih =>
    intro s h
    simp only [runOps]
    exact ih _ (applyOp_history s op h)

/-- C9: the frame-rate history holds at most 120 samples after any
sequence of scheduler operations from the initial state; a sample is
stored only for a strictly positive delta (otherwise the history is
untouched); and storing a sample into a full history of 120 prepends
the new sample (most recent first) and evicts the oldest (last) one,
keeping the length at exactly 120. -/
theorem claim_C9 :
    (∀ ops : List Op, (runOps initState ops).1.frameRateHistory.length ≤ 120) ∧
    (∀ s : State, ¬ 0 < s.delta →
      (storeFrameRateHistory s).frameRateHistory = s.frameRateHistory) ∧
    (∀ s : State, 0 < s.delta → s.frameRateHistory.length = 120 →
      (storeFrameRateHistory s).frameRateHistory =
        min (1000 / s.delta) (maxFrameRate s) :: s.frameRateHistory.dropLast ∧
      (storeFrameRateHistory s).frameRateHistory.length = 120) := by
  refine ⟨fun ops => runOps_history ops initState (by simp [initState]),
    fun s hd => by simp [storeFrameRateHistory, hd], fun s hd hl => ?_⟩
  have hlen : 120 < (min (1000 / s.delta) (maxFrameRate s) :: s.frameRateHistory).length := by
    simp [List.length_cons, hl]
  constructor
  · simp only [storeFrameRateHistory, if_pos hd, if_pos hlen]
    rw [show (120 : Nat) = 119 + 1 from rfl, List.take_succ_cons,
      List.dropLast_eq_take, hl]
  · simp only [storeFrameRateHistory, if_pos hd, if_pos hlen]
    simp only [List.length_take, List.length_cons, hl]
    omega

/-- A state with a full 120-sample history and delta 1, for the history
witness. -/
def c9S : State := { initState with delta := 1, frameRateHistory := List.replicate 120 30 }

/-- Witness for C9 at a full history: the new sample is prepended, the
oldest is evicted, the length stays 120. -/
theorem claim_C9_witness :
    (0 : ℚ) < c9S.delta ∧ c9S.frameRateHistory.length = 120 ∧
    (storeFrameRateHistory c9S).frameRateHistory =
      min (1000 / c9S.delta) (maxFrameRate c9S) :: c9S.frameRateHistory.dropLast ∧
    (storeFrameRateHistory c9S).frameRateHistory.length = 120 := by
  have h := claim_C9.2.2 c9S (by norm_num [c9S]) (by simp [c9S])
  exact ⟨by norm_num [c9S], by simp [c9S], h.1, h.2⟩

end TickerService

namespace TickerService

theorem lookup_append_fresh {β : Type} {l : List (Nat × β)} {i : Nat} (e : β)
    (h : i ∉ l.map Prod.fst) : (l ++ [(i, e)]).lookup i = some e := by
  induction l with
  | nil => simp [List.lookup]
  | cons p rest ih =>
    obtain ⟨j, f⟩ := p
    simp only [List.map_cons, List.mem_cons, not_or] at h
    simp only [List.cons_append, List.lookup, beq_eq_false_iff_ne .. |>.mpr h.1]
    exact ih h.2

theorem createTickerCallback_ok {s : State} {now : ℚ} {cbFn : Bool} {ps : List Param}
    {rep del : JSVal} {i : Nat} {s' : State}
    (h : createTickerCallback s now cbFn ps rep del = Except.ok (i, s')) :
    i = s.currentIndex ∧ s' = registeredState s now cbFn ps rep del := by
  unfold createTickerCallback at h
  by_cases h1 : (!isNumber del || jsLe0 del) = true
  · rw [if_pos h1] at h
    cases h
  · rw [if_neg h1] at h
    by_cases h2 : (!isNumber rep || jsLe0 rep) = true
    · rw [if_pos h2] at h
      cases h
    · rw [if_neg h2] at h
      simp only [Except.ok.injEq, Prod.mk.injEq] at h
      exact ⟨h.1.symm, h.2.symm⟩

theorem tickEntry_totalTime (δ : ℚ) (t : TickerCallback) :
    (tickEntry δ t).1.totalTime = t.totalTime + δ := by
  unfold tickEntry
  by_cases h : (jsGe (t.totalTime + δ - t.executionTime) t.delay && t.callbackIsFn) = true <;>
    simp [h]

/-- C10: an entry registered while the run loop is active (a previous
frame timestamp is recorded) has its accumulated time initialised to
`currentTime - now`, the previous-frame timestamp minus the registration
timestamp, which is nonpositive under a monotone clock; consequently, on
the next frame, after the full frame delta is added, the entry's
accumulated time equals exactly the time elapsed since its registration
(`frameTime - registrationTime`) — the entry is never charged time that
elapsed before it was registered. -/
theorem claim_C10 (s : State) (now frameT : ℚ) (cbFn : Bool) (ps : List Param)
    (rep del : JSVal) (i : Nat) (s' : State)
    (hreg : createTickerCallback s now cbFn ps rep del = Except.ok (i, s'))
    (hrun : s.running = true) (hpend : s.framePending = true)
    (hprev : s.currentTime ≠ 0) (hmono : s.currentTime ≤ now)
    (hnd : (s.tickerCallbacks.map Prod.fst).Nodup)
    (hkeys : ∀ k ∈ s.tickerCallbacks.map Prod.fst, k < s.currentIndex) :
    s'.tickerCallbacks.lookup i =
      some ⟨cbFn, ps, rep, del, 0, 0, s.currentTime - now⟩ ∧
    s.currentTime - now ≤ 0 ∧
    (∀ e', (frameStep s' frameT).1.tickerCallbacks.lookup i = some e' →
      e'.totalTime = frameT - now) := by
  obtain ⟨hi, hs'⟩ := createTickerCallback_ok hreg
  subst hs'
  subst hi
  have hfresh : s.currentIndex ∉ s.tickerCallbacks.map Prod.fst := fun hm =>
    lt_irrefl _ (hkeys _ hm)
  have h1 : (registeredState s now cbFn ps rep del).tickerCallbacks.lookup s.currentIndex =
      some ⟨cbFn, ps, rep, del, 0, 0, s.currentTime - now⟩ :=
    lookup_append_fresh _ hfresh
  refine ⟨h1, sub_nonpos.mpr hmono, ?_⟩
  intro e' he'
  obtain ⟨_, p2, _⟩ := frameStep_proj (registeredState s now cbFn ps rep del) frameT
    hpend hrun hprev
  simp only [registeredState] at p2
  simp only [registeredState] at he'
  rw [p2] at he'
  by_cases hδ : frameT - s.currentTime ≠ 0
  · rw [if_pos hδ] at he'
    have hndX : ((s.tickerCallbacks ++
        [(s.currentIndex, (⟨cbFn, ps, rep, del, 0, 0, s.currentTime - now⟩ : TickerCallback))]).map
          Prod.fst).Nodup := by
      rw [List.map_append]
      refine List.Nodup.append hnd (List.nodup_singleton _) ?_
      intro a ha hb
      simp only [List.map_cons, List.map_nil, List.mem_singleton] at hb
      subst hb
      exact hfresh ha
    have hmemX : (s.currentIndex,
        (⟨cbFn, ps, rep, del, 0, 0, s.currentTime - now⟩ : TickerCallback)) ∈
        s.tickerCallbacks ++
          [(s.currentIndex, (⟨cbFn, ps, rep, del, 0, 0, s.currentTime - now⟩ : TickerCallback))] :=
      List.mem_append_right _ (List.mem_singleton_self _)
    obtain ⟨hsp1, _⟩ := tick_spec (frameT - s.currentTime) _ s.currentIndex _ hndX hmemX
    rw [hsp1] at he'
    by_cases hrm : (tickEntry (frameT - s.currentTime)
        (⟨cbFn, ps, rep, del, 0, 0, s.currentTime - now⟩ : TickerCallback)).2.2 = true
    · rw [if_pos hrm] at he'
      cases he'
    · rw [if_neg hrm] at he'
      injection he' with he''
      rw [← he'', tickEntry_totalTime]
      show s.currentTime - now + (frameT - s.currentTime) = frameT - now
      ring
  · rw [if_neg hδ] at he'
    have hfT : frameT = s.currentTime := by
      have h0 : frameT - s.currentTime = 0 := not_ne_iff.mp hδ
      linarith
    rw [lookup_append_fresh _ hfresh] at he'
    injection he' with he''
    rw [← he'', hfT]

end TickerService

namespace TickerService

/-- The scheduler started at timestamp 1000, for the registration-offset
witness. -/
def c10Start : State := start initState 1000

/-- The state after registering a two-repeat, delay-50 entry at
timestamp 1005 on `c10Start`. -/
def c10S : State := registeredState c10Start 1005 true [] (JSVal.num 2) (JSVal.num 50)

/-- Witness for C10: registering at timestamp 1005 while the previous
frame timestamp is 1000 stores accumulated time `-5`; the frame at
timestamp 1060 brings the entry's accumulated time to `55 = 1060 -
1005`, exactly the time since registration. -/
theorem claim_C10_witness :
    createTickerCallback c10Start 1005 true [] (JSVal.num 2) (JSVal.num 50) =
      Except.ok (10000, c10S) ∧
    c10S.tickerCallbacks.lookup 10000 =
      some ⟨true, [], JSVal.num 2, JSVal.num 50, 0, 0, c10Start.currentTime - 1005⟩ ∧
    c10Start.currentTime - 1005 ≤ 0 ∧
    (frameStep c10S 1060).1.tickerCallbacks.lookup 10000 =
      some ⟨true, [], JSVal.num 2, JSVal.num 50, 1, 55, 55⟩ ∧
    (55 : ℚ) = 1060 - 1005 := by
  have hreg : createTickerCallback c10Start 1005 true [] (JSVal.num 2) (JSVal.num 50) =
      Except.ok (10000, c10S) := by
    norm_num [c10S, c10Start, createTickerCallback, registeredState, start,
      setUseScopeFunctions, initState, isNumber, jsLe0]
  have hlook : (frameStep c10S 1060).1.tickerCallbacks.lookup 10000 =
      some ⟨true, [], JSVal.num 2, JSVal.num 50, 1, 55, 55⟩ := by
    norm_num [c10S, c10Start, registeredState, start, setUseScopeFunctions, initState,
      frameStep, storeFrameRateHistory, maxFrameRate, tick, tickEntry, jsGe, jsCountGe,
      List.lookup]
  have h := claim_C10 c10Start 1005 1060 true [] (JSVal.num 2) (JSVal.num 50) 10000 c10S
    hreg rfl rfl (by norm_num [c10Start, start, setUseScopeFunctions, initState])
    (by norm_num [c10Start, start, setUseScopeFunctions, initState])
    (by simp [c10Start, start, setUseScopeFunctions, initState])
    (by simp [c10Start, start, setUseScopeFunctions, initState])
  refine ⟨hreg, h.1, h.2.1, hlook, ?_⟩
  have := h.2.2 ⟨true, [], JSVal.num 2, JSVal.num 50, 1, 55, 55⟩ hlook
  simpa using this

end TickerService
